import Mathlib

/-!
Verification development for the axel-backend memory subsystem.

Each Python module relevant to the checked claims is shallowly embedded as
Lean definitions: machine floats become exact rationals (`ℚ`) where the code
only adds, compares and divides, and reals (`ℝ`) where the code calls
`math.log`; wall-clock time (`time.time()`) is passed explicitly as a `ℚ`
argument; Python dicts that the code treats as ordered key/value maps become
association lists; fallible repository calls are modelled by explicit failure
flags on the repository value.
-/

set_option autoImplicit false

namespace AxelBackend

/-! ## Circuit breaker — `backend/core/utils/circuit_breaker.py`

The breaker object's mutable attributes (`_state`, `_failure_count`,
`_success_count`, `_last_failure_time`, `_half_open_calls`, `stats`) become a
`CircuitBreaker` record; methods become functions taking the configuration,
the current wall-clock time, and the record.  The `asyncio.Lock` is omitted
(the methods are modelled as atomic). -/

/-- `CircuitState` enum: CLOSED / OPEN / HALF_OPEN. -/
inductive CircuitState where
  | closed
  | opened
  | halfOpen
  deriving DecidableEq, Repr

/-- `CircuitConfig` dataclass. -/
structure CircuitConfig where
  failureThreshold : ℕ
  successThreshold : ℕ
  timeoutSeconds : ℚ
  halfOpenMaxCalls : ℕ
  deriving DecidableEq, Repr

/-- `CircuitStats` dataclass (timestamps start as `None`). -/
structure CircuitStats where
  totalCalls : ℕ := 0
  successfulCalls : ℕ := 0
  failedCalls : ℕ := 0
  rejectedCalls : ℕ := 0
  stateChanges : ℕ := 0
  lastFailureTime : Option ℚ := none
  lastSuccessTime : Option ℚ := none
  deriving DecidableEq, Repr

/-- Mutable state of one `CircuitBreaker` instance. -/
structure CircuitBreaker where
  state : CircuitState
  failureCount : ℕ
  successCount : ℕ
  lastFailureTime : ℚ
  halfOpenCalls : ℕ
  stats : CircuitStats
  deriving DecidableEq, Repr

namespace CircuitBreaker

/-- `CircuitBreaker.__init__`: starts CLOSED with zeroed counters
(`_last_failure_time = 0.0`). -/
def init : CircuitBreaker :=
  { state := .closed
    failureCount := 0
    successCount := 0
    lastFailureTime := 0
    halfOpenCalls := 0
    stats := {} }

/-- `CircuitBreaker._transition_to`: changes state and counts the change
only when the state actually differs. -/
def transitionTo (newState : CircuitState) (cb : CircuitBreaker) : CircuitBreaker :=
  if cb.state ≠ newState then
    { cb with
        state := newState
        stats := { cb.stats with stateChanges := cb.stats.stateChanges + 1 } }
  else cb

/-- `CircuitBreaker.can_execute`: returns whether a request may proceed, and
the (possibly auto-transitioned) breaker.  In OPEN, once
`now - _last_failure_time ≥ timeout_seconds` the breaker moves to HALF_OPEN
with `_success_count` and `_half_open_calls` reset and the call is allowed. -/
def canExecute (cfg : CircuitConfig) (now : ℚ) (cb : CircuitBreaker) :
    Bool × CircuitBreaker :=
  match cb.state with
  | .closed => (true, cb)
  | .opened =>
      if now - cb.lastFailureTime ≥ cfg.timeoutSeconds then
        let cb' := transitionTo .halfOpen cb
        (true, { cb' with successCount := 0, halfOpenCalls := 0 })
      else (false, cb)
  | .halfOpen => (decide (cb.halfOpenCalls < cfg.halfOpenMaxCalls), cb)

/-- `CircuitBreaker.record_success`. -/
def recordSuccess (cfg : CircuitConfig) (now : ℚ) (cb : CircuitBreaker) :
    CircuitBreaker :=
  let cb := { cb with
    stats := { cb.stats with
      totalCalls := cb.stats.totalCalls + 1
      successfulCalls := cb.stats.successfulCalls + 1
      lastSuccessTime := some now } }
  if cb.state = .halfOpen then
    let cb := { cb with
      successCount := cb.successCount + 1
      halfOpenCalls := cb.halfOpenCalls - 1 }
    if cb.successCount ≥ cfg.successThreshold then
      { transitionTo .closed cb with failureCount := 0 }
    else cb
  else
    { cb with failureCount := 0 }

/-- `CircuitBreaker.record_failure`: bumps the failure counter and timestamp;
any failure in HALF_OPEN reopens the circuit, and in other states the circuit
opens once `failure_count ≥ failure_threshold`. -/
def recordFailure (cfg : CircuitConfig) (now : ℚ) (cb : CircuitBreaker) :
    CircuitBreaker :=
  let cb := { cb with
    stats := { cb.stats with
      totalCalls := cb.stats.totalCalls + 1
      failedCalls := cb.stats.failedCalls + 1
      lastFailureTime := some now }
    failureCount := cb.failureCount + 1
    lastFailureTime := now }
  if cb.state = .halfOpen then
    { transitionTo .opened cb with halfOpenCalls := 0 }
  else if cb.failureCount ≥ cfg.failureThreshold then
    transitionTo .opened cb
  else cb

end CircuitBreaker

/-- The module-level pre-configured circuits registered in
`CircuitBreaker._instances` at import time (`HASS_CIRCUIT`,
`RESEARCH_CIRCUIT`, `EMBEDDING_CIRCUIT`): name → config. -/
def preRegisteredCircuits : List (String × CircuitConfig) :=
  [ ("hass", { failureThreshold := 3, successThreshold := 2
               timeoutSeconds := 30, halfOpenMaxCalls := 3 })
  , ("research", { failureThreshold := 5, successThreshold := 2
                   timeoutSeconds := 60, halfOpenMaxCalls := 3 })
  , ("embedding", { failureThreshold := 3, successThreshold := 1
                    timeoutSeconds := 30, halfOpenMaxCalls := 3 }) ]

/-! ## Memory consolidation — `backend/memory/permanent/consolidator.py`

`MemoryConsolidator.consolidate` streams all memories from the repository,
partitions them (already-preserved / preserve candidates / evaluation batch),
then runs four repository stages inside one `try` block: batch-mark preserve
candidates, batch decay + delete, and batch-update survivors.  The whole
method body is wrapped in a single `try/except` that logs and returns the
partial report.

The ChromaDB metadata dict of one memory is modelled as `MemMeta`, with the
`.get(...)` defaults of the code folded into the record fields (`preserved`
defaults to false, `repetitions` to 1, `access_count` to 0, `importance` to
0.5 when the keys are absent).  The decay computation
(`decay_calculator.calculate_batch` together with `get_connection_count`,
whose sources are outside this tree) is abstracted as a parameter
`decayBatch` from the `(doc_id, metadata)` batch to the list of decayed
importances.  Repository failures are modelled by per-call failure flags; a
failing call performs no effect and aborts to the `except` handler. -/

/-- One memory's metadata as read in `consolidate`. -/
structure MemMeta where
  preserved : Bool
  repetitions : ℕ
  accessCount : ℕ
  importance : ℚ
  deriving DecidableEq, Repr

/-- `MemoryConfig` constants used by the consolidator (the config module is
outside this tree; the two constants are parameters). -/
structure MemoryConfig where
  preserveRepetitions : ℕ
  decayDeleteThreshold : ℚ
  deriving DecidableEq, Repr

/-- The repository view `consolidate` operates on: the `get_all` result and
failure flags for each fallible repository call. -/
structure ConsRepo where
  ids : List String
  metadatas : List (Option MemMeta)
  preserveUpdateFails : Bool := false
  deleteFails : Bool := false
  survivingUpdateFails : Bool := false
  getAllFails : Bool := false
  deriving Repr

/-- A successfully executed repository mutation during `consolidate`. -/
inductive ConsEffect where
  | preserveMark (ids : List String)
  | deleteIds (ids : List String)
  | updateSurviving (ids : List String)
  deriving DecidableEq, Repr

/-- The report dict returned by `consolidate`; `surviving_updated` is only
present (`some`) when the surviving-update stage ran on a non-empty list. -/
structure ConsReport where
  checked : ℕ := 0
  preserved : ℕ := 0
  deleted : ℕ := 0
  survivingUpdated : Option ℕ := none
  deriving DecidableEq, Repr

/-- The `(doc_id, metadata)` pairs of the `get_all` result
(`zip(ids, metadatas)`), entries with falsy metadata included. -/
def consPairs (repo : ConsRepo) : List (String × Option MemMeta) :=
  repo.ids.zip repo.metadatas

/-- The non-preserved entries with `repetitions ≥ PRESERVE_REPETITIONS`
(`to_preserve`), in stream order. -/
def toPreserveOf (cfg : MemoryConfig) (repo : ConsRepo) :
    List (String × MemMeta) :=
  (consPairs repo).filterMap fun p =>
    match p.2 with
    | none => none
    | some m =>
        if ¬m.preserved ∧ m.repetitions ≥ cfg.preserveRepetitions then
          some (p.1, m)
        else none

/-- The non-preserved entries below the preserve-repetition bar
(`batch_data`, without the unused enumeration index). -/
def batchDataOf (cfg : MemoryConfig) (repo : ConsRepo) :
    List (String × MemMeta) :=
  (consPairs repo).filterMap fun p =>
    match p.2 with
    | none => none
    | some m =>
        if ¬m.preserved ∧ m.repetitions < cfg.preserveRepetitions then
          some (p.1, m)
        else none

/-- `_calculate_deletions_batch`: the doc ids whose decayed importance is
below the delete threshold with `repetitions < 2` and `access_count < 3`. -/
def toDeleteOf (cfg : MemoryConfig)
    (decayBatch : List (String × MemMeta) → List ℚ) (repo : ConsRepo) :
    List String :=
  ((batchDataOf cfg repo).zip (decayBatch (batchDataOf cfg repo))).filterMap
    fun pd =>
      if pd.2 < cfg.decayDeleteThreshold ∧ pd.1.2.repetitions < 2 ∧
          pd.1.2.accessCount < 3 then
        some pd.1.1
      else none

/-- `_get_surviving_updates`: surviving `(doc_id, decayed)` pairs — batch
entries whose id was not marked for deletion. -/
def survivingOf (cfg : MemoryConfig)
    (decayBatch : List (String × MemMeta) → List ℚ) (repo : ConsRepo) :
    List (String × ℚ) :=
  ((batchDataOf cfg repo).zip (decayBatch (batchDataOf cfg repo))).filterMap
    fun pd =>
      if pd.1.1 ∈ toDeleteOf cfg decayBatch repo then none
      else some (pd.1.1, pd.2)

/-- `MemoryConsolidator.consolidate`: returns the report and the list of
repository mutations that actually executed.  All stages live in one `try`
block, so the first failing repository call jumps to the `except` handler,
which returns the report accumulated so far. -/
def consolidate (cfg : MemoryConfig)
    (decayBatch : List (String × MemMeta) → List ℚ) (repo : ConsRepo) :
    ConsReport × List ConsEffect :=
  if repo.getAllFails then ({}, []) else
  let checked := (consPairs repo).countP (fun p => p.2.isSome)
  let toPreserve := toPreserveOf cfg repo
  if toPreserve ≠ [] ∧ repo.preserveUpdateFails then
    ({ checked := checked }, [])
  else
    let preservedCount := if toPreserve = [] then 0 else toPreserve.length
    let effects1 : List ConsEffect :=
      if toPreserve = [] then [] else [.preserveMark (toPreserve.map Prod.fst)]
    let toDelete := toDeleteOf cfg decayBatch repo
    -- `report["deleted"] = len(to_delete)` is assigned before the delete call
    if toDelete ≠ [] ∧ repo.deleteFails then
      ({ checked := checked, preserved := preservedCount
         deleted := toDelete.length }, effects1)
    else
      let effects2 := effects1 ++
        (if toDelete = [] then [] else [.deleteIds toDelete])
      let surviving := survivingOf cfg decayBatch repo
      if surviving ≠ [] ∧ repo.survivingUpdateFails then
        ({ checked := checked, preserved := preservedCount
           deleted := toDelete.length }, effects2)
      else
        ({ checked := checked, preserved := preservedCount
           deleted := toDelete.length
           survivingUpdated :=
             if surviving = [] then none else some surviving.length },
          effects2 ++
            (if surviving = [] then []
             else [.updateSurviving (surviving.map Prod.fst)]))

/-- The ids left in the store after `consolidate`: the delete stage removes
exactly `to_delete` when it runs and does not fail. -/
def storeAfterConsolidate (cfg : MemoryConfig)
    (decayBatch : List (String × MemMeta) → List ℚ) (repo : ConsRepo) :
    List String :=
  if (ConsEffect.deleteIds (toDeleteOf cfg decayBatch repo)) ∈
      (consolidate cfg decayBatch repo).2 then
    repo.ids.filter (fun i => i ∉ toDeleteOf cfg decayBatch repo)
  else repo.ids

/-! ## Maintenance decay sweep — `scripts/pg_memory_gc.py`

`phase4_decay_cleanup` deletes every row of the `memories` table matching
`(decayed_importance IS NOT NULL AND decayed_importance < 0.1) OR
(importance < 0.1 AND access_count <= 1)`.  A row of the table is modelled
with the three columns the predicate reads plus the preserved mark. -/

/-- One row of the PG `memories` table (the columns the sweep touches,
plus the preserved mark however it is stored). -/
structure PgMemRow where
  uuid : String
  importance : ℚ
  decayedImportance : Option ℚ
  accessCount : ℤ
  preserved : Bool
  deriving DecidableEq, Repr

/-- The SQL `condition` of phase 4. -/
def phase4Condition (r : PgMemRow) : Bool :=
  (match r.decayedImportance with
   | some d => decide (d < mkRat 1 10)
   | none => false) ||
  (decide (r.importance < mkRat 1 10) && decide (r.accessCount ≤ 1))

/-- `phase4_decay_cleanup` (non-dry-run): deletes matching rows, returning
the remaining table and the deleted count. -/
def phase4DecayCleanup (table : List PgMemRow) : List PgMemRow × ℕ :=
  (table.filter (fun r => ¬phase4Condition r),
   (table.filter phase4Condition).length)

lemma zip_nodup_right_unique {α β : Type} {l₁ : List α} {l₂ : List β}
    {a : α} {b b' : β} (hnd : l₁.Nodup)
    (h : (a, b) ∈ l₁.zip l₂) (h' : (a, b') ∈ l₁.zip l₂) : b = b' := by
  induction l₁ generalizing l₂ with
  | nil => simp at h
  | cons x t ih =>
      cases l₂ with
      | nil => simp at h
      | cons y t₂ =>
          obtain ⟨hx, hnd'⟩ := List.nodup_cons.mp hnd
          rw [List.zip_cons_cons] at h h'
          rcases List.mem_cons.mp h with h1 | h1
          · rcases List.mem_cons.mp h' with h2 | h2
            · injection h1 with ha hb
              injection h2 with ha' hb'
              rw [hb, hb']
            · injection h1 with ha hb
              exact absurd (ha ▸ (List.of_mem_zip h2).1) hx
          · rcases List.mem_cons.mp h' with h2 | h2
            · injection h2 with ha' hb'
              exact absurd (ha' ▸ (List.of_mem_zip h1).1) hx
            · exact ih hnd' h1 h2

lemma mem_toDelete_exists_batch {cfg : MemoryConfig}
    {decayBatch : List (String × MemMeta) → List ℚ} {repo : ConsRepo}
    {id : String} (h : id ∈ toDeleteOf cfg decayBatch repo) :
    ∃ m, (id, m) ∈ batchDataOf cfg repo := by
  rw [toDeleteOf] at h
  obtain ⟨pd, hpd, hf⟩ := List.mem_filterMap.mp h
  refine ⟨pd.1.2, ?_⟩
  split at hf
  · have h1 : pd.1.1 = id := Option.some.inj hf
    have h2 : pd.1 ∈ batchDataOf cfg repo := (List.of_mem_zip hpd).1
    rwa [← h1, Prod.mk.eta]
  · exact absurd hf (by simp)

lemma mem_batchData_not_preserved {cfg : MemoryConfig} {repo : ConsRepo}
    {id : String} {m : MemMeta} (h : (id, m) ∈ batchDataOf cfg repo) :
    (id, some m) ∈ consPairs repo ∧ m.preserved = false := by
  rw [batchDataOf] at h
  obtain ⟨p, hp, hf⟩ := List.mem_filterMap.mp h
  obtain ⟨pid, pmeta⟩ := p
  cases pmeta with
  | none => exact absurd hf (by simp)
  | some m' =>
      dsimp only at hf
      split at hf
      · rename_i hcond
        have h1 : (pid, m') = (id, m) := Option.some.inj hf
        injection h1 with ha hb
        refine ⟨by rw [← ha, ← hb]; exact hp, ?_⟩
        rw [← hb]
        simpa using hcond.1
      · exact absurd hf (by simp)

/-- C1 counterexample: a memory marked preserved, with
`decayed_importance = 0.05`, is deleted by the maintenance decay sweep
`phase4_decay_cleanup`, whose SQL condition never consults the preserved
mark — so the decay machinery does not leave every preserved memory in the
store. -/
theorem preserved_memory_deleted_by_decay_sweep :
    (PgMemRow.mk "mem-preserved" (mkRat 8 10) (some (mkRat 1 20)) 5 true).preserved = true ∧
    (phase4DecayCleanup [PgMemRow.mk "mem-preserved" (mkRat 8 10) (some (mkRat 1 20)) 5 true]).1 = [] ∧
    (phase4DecayCleanup [PgMemRow.mk "mem-preserved" (mkRat 8 10) (some (mkRat 1 20)) 5 true]).2 = 1 := by
  refine ⟨rfl, ?_, rfl⟩
  decide

/-- C1 amended: the consolidation pass never deletes a memory whose metadata
marks it as preserved (preserved entries are skipped before the evaluation
batch is formed, so they stay in the store); the maintenance decay sweep
`phase4_decay_cleanup`, however, deletes purely by the low-importance
condition and ignores the preserved mark entirely. -/
theorem consolidator_spares_preserved_sweep_ignores_flag :
    (∀ (cfg : MemoryConfig) (decayBatch : List (String × MemMeta) → List ℚ)
        (repo : ConsRepo) (id : String) (m : MemMeta),
      repo.ids.Nodup → (id, some m) ∈ consPairs repo → m.preserved = true →
      id ∉ toDeleteOf cfg decayBatch repo ∧
      id ∈ storeAfterConsolidate cfg decayBatch repo) ∧
    (∀ (r : PgMemRow) (b : Bool),
      phase4Condition { r with preserved := b } = phase4Condition r) := by
  constructor
  · intro cfg decayBatch repo id m hnd hmem hpres
    have hnotdel : id ∉ toDeleteOf cfg decayBatch repo := by
      intro hdel
      obtain ⟨m', hm'⟩ := mem_toDelete_exists_batch hdel
      obtain ⟨hmem', hfalse⟩ := mem_batchData_not_preserved hm'
      have : some m = some m' :=
        @zip_nodup_right_unique String (Option MemMeta) repo.ids repo.metadatas _ _ _ hnd hmem hmem'
      rw [Option.some.inj this, hfalse] at hpres
      exact Bool.false_ne_true hpres
    have hid : id ∈ repo.ids := (List.of_mem_zip hmem).1
    refine ⟨hnotdel, ?_⟩
    rw [storeAfterConsolidate]
    split
    · exact List.mem_filter.mpr ⟨hid, by simpa using hnotdel⟩
    · exact hid
  · intro r b
    rfl

/-- Witness for `consolidator_spares_preserved_sweep_ignores_flag`: a single
preserved memory with importance `0.05` (below any reasonable threshold) is
not selected for deletion and remains in the store. -/
theorem consolidator_spares_preserved_sweep_ignores_flag_witness :
    (["keep"].Nodup ∧
      ("keep", some (MemMeta.mk true 1 0 (mkRat 1 20))) ∈
        consPairs (ConsRepo.mk ["keep"] [some (MemMeta.mk true 1 0 (mkRat 1 20))]
          false false false false) ∧
      (MemMeta.mk true 1 0 (mkRat 1 20)).preserved = true) ∧
    ("keep" ∉ toDeleteOf (MemoryConfig.mk 5 (mkRat 1 10))
        (fun l => l.map (fun p => p.2.importance))
        (ConsRepo.mk ["keep"] [some (MemMeta.mk true 1 0 (mkRat 1 20))]
          false false false false) ∧
      "keep" ∈ storeAfterConsolidate (MemoryConfig.mk 5 (mkRat 1 10))
        (fun l => l.map (fun p => p.2.importance))
        (ConsRepo.mk ["keep"] [some (MemMeta.mk true 1 0 (mkRat 1 20))]
          false false false false)) :=
  ⟨⟨by decide, by decide, rfl⟩,
    (consolidator_spares_preserved_sweep_ignores_flag.1
      (MemoryConfig.mk 5 (mkRat 1 10)) (fun l => l.map (fun p => p.2.importance))
      (ConsRepo.mk ["keep"] [some (MemMeta.mk true 1 0 (mkRat 1 20))]
        false false false false)
      "keep" (MemMeta.mk true 1 0 (mkRat 1 20))
      (by decide) (by decide) rfl)⟩

/-- C2 counterexample: with two evaluated memories — one deletable
(`importance 0.05`), one survivor (`importance 0.5`) — and a repository
whose `delete` raises, `consolidate` returns the partial report and executes
no later stage: the surviving-ids importance update does not run (no
`updateSurviving` effect), although the same repository with a working
`delete` does run it. -/
theorem consolidate_delete_failure_skips_surviving_update :
    consolidate (MemoryConfig.mk 5 (mkRat 1 10))
        (fun l => l.map (fun p => p.2.importance))
        (ConsRepo.mk ["m1", "m2"]
          [some (MemMeta.mk false 1 0 (mkRat 1 20)), some (MemMeta.mk false 1 0 (mkRat 1 2))]
          false true false false) =
      ({ checked := 2, preserved := 0, deleted := 1, survivingUpdated := none },
        []) ∧
    consolidate (MemoryConfig.mk 5 (mkRat 1 10))
        (fun l => l.map (fun p => p.2.importance))
        (ConsRepo.mk ["m1", "m2"]
          [some (MemMeta.mk false 1 0 (mkRat 1 20)), some (MemMeta.mk false 1 0 (mkRat 1 2))]
          false false false false) =
      ({ checked := 2, preserved := 0, deleted := 1, survivingUpdated := some 1 },
        [.deleteIds ["m1"], .updateSurviving ["m2"]]) := by
  constructor <;> decide

/-- C2 amended: all stages of `consolidate` run inside one `try/except`, so a
failure is logged and the method still returns (with the report accumulated
so far) — but the stages after the failing one are skipped.  In particular,
when the delete stage raises, neither the delete nor the surviving-ids
update takes effect, and `surviving_updated` is absent from the report. -/
theorem consolidate_failure_aborts_later_stages
    (cfg : MemoryConfig) (decayBatch : List (String × MemMeta) → List ℚ)
    (repo : ConsRepo)
    (hga : repo.getAllFails = false)
    (hpu : toPreserveOf cfg repo ≠ [] → repo.preserveUpdateFails = false)
    (hne : toDeleteOf cfg decayBatch repo ≠ [])
    (hdf : repo.deleteFails = true) :
    consolidate cfg decayBatch repo =
      ({ checked := (consPairs repo).countP (fun p => p.2.isSome)
         preserved := (toPreserveOf cfg repo).length
         deleted := (toDeleteOf cfg decayBatch repo).length
         survivingUpdated := none },
        if toPreserveOf cfg repo = [] then []
        else [.preserveMark ((toPreserveOf cfg repo).map Prod.fst)]) ∧
    (∀ l, ConsEffect.updateSurviving l ∉ (consolidate cfg decayBatch repo).2) ∧
    (∀ l, ConsEffect.deleteIds l ∉ (consolidate cfg decayBatch repo).2) := by
  have hmain : consolidate cfg decayBatch repo =
      ({ checked := (consPairs repo).countP (fun p => p.2.isSome)
         preserved := (toPreserveOf cfg repo).length
         deleted := (toDeleteOf cfg decayBatch repo).length
         survivingUpdated := none },
        if toPreserveOf cfg repo = [] then []
        else [.preserveMark ((toPreserveOf cfg repo).map Prod.fst)]) := by
    rw [consolidate, if_neg (by simp [hga])]
    by_cases hp : toPreserveOf cfg repo = []
    · rw [if_neg (by simp [hp])]
      rw [if_pos (by exact ⟨hne, hdf⟩)]
      simp [hp]
    · rw [if_neg (by simp [hpu hp])]
      rw [if_pos (by exact ⟨hne, hdf⟩)]
      simp [hp]
  refine ⟨hmain, fun l => ?_, fun l => ?_⟩ <;> rw [hmain] <;>
    split <;> simp

/-- Witness for `consolidate_failure_aborts_later_stages` at the concrete
two-memory repository whose delete stage fails. -/
theorem consolidate_failure_aborts_later_stages_witness :
    ((ConsRepo.mk ["m1", "m2"]
        [some (MemMeta.mk false 1 0 (mkRat 1 20)), some (MemMeta.mk false 1 0 (mkRat 1 2))]
        false true false false).getAllFails = false ∧
      toDeleteOf (MemoryConfig.mk 5 (mkRat 1 10))
        (fun l => l.map (fun p => p.2.importance))
        (ConsRepo.mk ["m1", "m2"]
          [some (MemMeta.mk false 1 0 (mkRat 1 20)), some (MemMeta.mk false 1 0 (mkRat 1 2))]
          false true false false) ≠ []) ∧
    (∀ l, ConsEffect.updateSurviving l ∉
      (consolidate (MemoryConfig.mk 5 (mkRat 1 10))
        (fun l' => l'.map (fun p => p.2.importance))
        (ConsRepo.mk ["m1", "m2"]
          [some (MemMeta.mk false 1 0 (mkRat 1 20)), some (MemMeta.mk false 1 0 (mkRat 1 2))]
          false true false false)).2) :=
  ⟨⟨rfl, by decide⟩,
    (consolidate_failure_aborts_later_stages (MemoryConfig.mk 5 (mkRat 1 10))
      (fun l => l.map (fun p => p.2.importance))
      (ConsRepo.mk ["m1", "m2"]
        [some (MemMeta.mk false 1 0 (mkRat 1 20)), some (MemMeta.mk false 1 0 (mkRat 1 2))]
        false true false false)
      rfl (by intro h; rfl) (by decide) rfl).2.1⟩

/-! ## TTL cache — `backend/core/utils/cache.py`

`TTLCache` keeps an `OrderedDict` from key to `(value, timestamp)`; it is
modelled as an association list in insertion order (head = oldest = LRU
position, tail = newest = MRU position).  The per-cache `asyncio.Lock` is
omitted (operations are modelled as atomic).  `time.time()` becomes an
explicit `now : ℚ` argument. -/

/-- `CacheStats` dataclass. -/
structure CacheStats where
  hits : ℕ := 0
  misses : ℕ := 0
  evictions : ℕ := 0
  deriving DecidableEq, Repr

/-- State of one `TTLCache` instance: `maxsize`, `ttl_seconds`, the ordered
`_cache` entries `(key, value, timestamp)`, and `stats`. -/
structure TTLCache (α : Type) where
  maxsize : ℕ
  ttl : ℚ
  entries : List (String × α × ℚ)
  stats : CacheStats
  deriving DecidableEq, Repr

namespace TTLCache

/-- `TTLCache.__init__`. -/
def init (α : Type) (maxsize : ℕ) (ttlSeconds : ℚ) : TTLCache α :=
  { maxsize := maxsize, ttl := ttlSeconds, entries := [], stats := {} }

/-- The `while len(self._cache) >= self.maxsize: self._cache.popitem(last=False)`
loop in `TTLCache.set`: pops oldest entries until the size is below `maxsize`.
(For `maxsize = 0` the Python loop would raise `KeyError` on the empty dict;
the model simply returns the empty list there.) -/
def evictToBelow {β : Type} (m : ℕ) : List β → List β
  | [] => []
  | x :: t => if m ≤ (x :: t).length then evictToBelow m t else x :: t

/-- `del self._cache[key]`: removes the entry stored under `key`. -/
def removeKey {α : Type} (key : String) (l : List (String × α × ℚ)) :
    List (String × α × ℚ) :=
  l.filter (fun e => e.1 ≠ key)

/-- `TTLCache.get`: returns `(hit, value)` and the updated cache.  A present
entry whose age `now - timestamp` reaches the TTL is deleted and counted as a
miss and an eviction; a hit moves the entry to the MRU (tail) position
(`move_to_end`). -/
def get {α : Type} (now : ℚ) (key : String) (c : TTLCache α) :
    (Bool × Option α) × TTLCache α :=
  match c.entries.lookup key with
  | none => ((false, none), { c with stats := { c.stats with misses := c.stats.misses + 1 } })
  | some (v, ts) =>
      if now - ts ≥ c.ttl then
        ((false, none),
          { c with
              entries := removeKey key c.entries
              stats := { c.stats with
                misses := c.stats.misses + 1
                evictions := c.stats.evictions + 1 } })
      else
        ((true, some v),
          { c with
              entries := removeKey key c.entries ++ [(key, v, ts)]
              stats := { c.stats with hits := c.stats.hits + 1 } })

/-- `TTLCache.set`: evicts oldest entries while at capacity, then stores
`(value, now)` under `key` — replacing in place when the key survived the
eviction loop, appending at the MRU position otherwise. -/
def set {α : Type} (now : ℚ) (key : String) (v : α) (c : TTLCache α) :
    TTLCache α :=
  let l := evictToBelow c.maxsize c.entries
  let evicted := c.entries.length - l.length
  { c with
      entries :=
        if (l.lookup key).isSome then
          l.map (fun e => if e.1 = key then (key, v, now) else e)
        else l ++ [(key, v, now)]
      stats := { c.stats with evictions := c.stats.evictions + evicted } }

/-- `TTLCache.invalidate`: removes the key if present. -/
def invalidate {α : Type} (key : String) (c : TTLCache α) :
    Bool × TTLCache α :=
  if (c.entries.lookup key).isSome then
    (true, { c with entries := removeKey key c.entries })
  else (false, c)

/-- `TTLCache.clear`: empties the cache, returning the count of cleared
items. -/
def clear {α : Type} (c : TTLCache α) : ℕ × TTLCache α :=
  (c.entries.length, { c with entries := [] })

end TTLCache

/-- One public cache operation together with its wall-clock instant. -/
inductive CacheOp (α : Type) where
  | get (now : ℚ) (key : String)
  | set (now : ℚ) (key : String) (v : α)
  | invalidate (key : String)
  | clear
  deriving Repr

/-- Apply one `CacheOp`, discarding the returned value. -/
def applyCacheOp {α : Type} (c : TTLCache α) : CacheOp α → TTLCache α
  | .get now key => (TTLCache.get now key c).2
  | .set now key v => TTLCache.set now key v c
  | .invalidate key => (TTLCache.invalidate key c).2
  | .clear => (TTLCache.clear c).2

/-- Apply a sequence of cache operations in order. -/
def applyCacheOps {α : Type} (ops : List (CacheOp α)) (c : TTLCache α) :
    TTLCache α :=
  ops.foldl applyCacheOp c

lemma evictToBelow_length_lt {β : Type} {m : ℕ} (hm : 1 ≤ m) (l : List β) :
    (TTLCache.evictToBelow m l).length < m := by
  induction l with
  | nil => simpa [TTLCache.evictToBelow] using hm
  | cons x t ih =>
      rw [TTLCache.evictToBelow]
      split
      · exact ih
      · omega

lemma lookup_isSome_exists_key {α : Type} {l : List (String × α × ℚ)}
    {key : String} (h : (l.lookup key).isSome) :
    ∃ e ∈ l, e.1 = key := by
  induction l with
  | nil => simp [List.lookup] at h
  | cons x t ih =>
      obtain ⟨k, v⟩ := x
      rw [List.lookup] at h
      cases hbeq : (key == k) with
      | true =>
          exact ⟨(k, v), List.mem_cons_self _ _, (eq_of_beq hbeq).symm⟩
      | false =>
          simp only [hbeq] at h
          obtain ⟨e, he, hek⟩ := ih h
          exact ⟨e, List.mem_cons_of_mem _ he, hek⟩

lemma removeKey_length_le {α : Type} (key : String)
    (l : List (String × α × ℚ)) :
    (TTLCache.removeKey key l).length ≤ l.length :=
  List.length_filter_le _ _

lemma removeKey_length_lt {α : Type} {key : String}
    {l : List (String × α × ℚ)} (h : (l.lookup key).isSome) :
    (TTLCache.removeKey key l).length < l.length := by
  obtain ⟨e, he, hek⟩ := lookup_isSome_exists_key h
  exact List.length_filter_lt_length_iff_exists.mpr ⟨e, he, by simp [hek]⟩

lemma get_snd_maxsize {α : Type} (now : ℚ) (key : String) (c : TTLCache α) :
    ((TTLCache.get now key c).2).maxsize = c.maxsize := by
  rw [TTLCache.get]
  cases hl : c.entries.lookup key with
  | none => rfl
  | some p =>
      obtain ⟨v, ts⟩ := p
      dsimp only
      split <;> rfl

lemma get_entries_length_le {α : Type} (now : ℚ) (key : String)
    (c : TTLCache α) :
    ((TTLCache.get now key c).2).entries.length ≤ c.entries.length := by
  rw [TTLCache.get]
  cases hl : c.entries.lookup key with
  | none => simp
  | some p =>
      obtain ⟨v, ts⟩ := p
      have hlt : (TTLCache.removeKey key c.entries).length
          < c.entries.length := removeKey_length_lt (by simp [hl])
      dsimp only
      split
      · simpa using Nat.le_of_lt hlt
      · simpa using hlt

lemma set_entries_length_le {α : Type} (now : ℚ) (key : String) (v : α)
    (c : TTLCache α) (hm : 1 ≤ c.maxsize) :
    (TTLCache.set now key v c).entries.length ≤ c.maxsize := by
  rw [TTLCache.set]
  have hlt := evictToBelow_length_lt hm c.entries
  split
  · simpa using Nat.le_of_lt hlt
  · simpa using hlt

/-- C10: for a `TTLCache` with `maxsize ≥ 1`, after any sequence of `get`,
`set`, `invalidate` and `clear` operations starting from a fresh cache, the
number of stored entries never exceeds `maxsize`: `set` evicts oldest
entries until the size is below `maxsize` before inserting, and `get`,
`invalidate` and `clear` never grow the entry list. -/
theorem ttlcache_size_never_exceeds_maxsize
    (α : Type) (m : ℕ) (hm : 1 ≤ m) (ttlSeconds : ℚ)
    (ops : List (CacheOp α)) :
    (applyCacheOps ops (TTLCache.init α m ttlSeconds)).entries.length ≤ m ∧
    (∀ (c : TTLCache α) (now : ℚ) (key : String),
      ((TTLCache.get now key c).2).entries.length ≤ c.entries.length) ∧
    (∀ (c : TTLCache α) (key : String),
      ((TTLCache.invalidate key c).2).entries.length ≤ c.entries.length) ∧
    (∀ c : TTLCache α, ((TTLCache.clear c).2).entries.length ≤ c.entries.length) := by
  refine ⟨?_, fun c now key => get_entries_length_le now key c,
    fun c key => ?_, fun c => by simp [TTLCache.clear]⟩
  · have key_inv : ∀ (c : TTLCache α) (op : CacheOp α),
        c.entries.length ≤ c.maxsize → 1 ≤ c.maxsize →
        (applyCacheOp c op).entries.length ≤ (applyCacheOp c op).maxsize ∧
        (applyCacheOp c op).maxsize = c.maxsize := by
      intro c op hc hm1
      cases op with
      | get now key =>
          refine ⟨?_, get_snd_maxsize now key c⟩
          rw [applyCacheOp, get_snd_maxsize now key c]
          exact le_trans (get_entries_length_le now key c) hc
      | set now key v =>
          refine ⟨?_, rfl⟩
          exact set_entries_length_le now key v c hm1
      | invalidate key =>
          rw [applyCacheOp, TTLCache.invalidate]
          split
          · exact ⟨le_trans (removeKey_length_le key c.entries) hc, rfl⟩
          · exact ⟨hc, rfl⟩
      | clear => exact ⟨Nat.zero_le _, rfl⟩
    have main : ∀ (l : List (CacheOp α)) (c : TTLCache α),
        c.entries.length ≤ c.maxsize → 1 ≤ c.maxsize →
        (applyCacheOps l c).entries.length ≤ (applyCacheOps l c).maxsize ∧
        (applyCacheOps l c).maxsize = c.maxsize := by
      intro l
      induction l with
      | nil => intro c hc hm1; exact ⟨hc, rfl⟩
      | cons op rest ih =>
          intro c hc hm1
          obtain ⟨h1, h2⟩ := key_inv c op hc hm1
          obtain ⟨h3, h4⟩ := ih (applyCacheOp c op) h1 (h2 ▸ hm1)
          exact ⟨by simpa [applyCacheOps] using h3,
            by simpa [applyCacheOps] using h4.trans h2⟩
    obtain ⟨h1, h2⟩ := main ops (TTLCache.init α m ttlSeconds)
      (by simp [TTLCache.init]) (by simpa [TTLCache.init] using hm)
    calc (applyCacheOps ops (TTLCache.init α m ttlSeconds)).entries.length
        ≤ (applyCacheOps ops (TTLCache.init α m ttlSeconds)).maxsize := h1
      _ = m := by simpa [TTLCache.init] using h2
  · rw [TTLCache.invalidate]
    split
    · simpa using removeKey_length_le key c.entries
    · simp

/-- Witness for `ttlcache_size_never_exceeds_maxsize`: three `set`s of
distinct keys into a fresh cache with `maxsize = 2` leave at most 2
entries. -/
theorem ttlcache_size_never_exceeds_maxsize_witness :
    1 ≤ 2 ∧
    (applyCacheOps
        [CacheOp.set 0 "a" (0 : ℕ), CacheOp.set 1 "b" 1, CacheOp.set 2 "c" 2]
        (TTLCache.init ℕ 2 60)).entries.length ≤ 2 :=
  ⟨by norm_num,
    (ttlcache_size_never_exceeds_maxsize ℕ 2 (by norm_num) 60
      [CacheOp.set 0 "a" 0, CacheOp.set 1 "b" 1, CacheOp.set 2 "c" 2]).1⟩

/-- C3: with `failure_threshold = 3` and `timeout = 30 s`, starting CLOSED,
three consecutive `record_failure` calls leave the circuit OPEN with
`can_execute` false while fewer than 30 s have passed since the last failure,
and the first `can_execute` at least 30 s after the last failure returns true
and moves the circuit to HALF_OPEN. -/
theorem circuit_three_failures_open_then_half_open
    (st hm : ℕ) (t1 t2 t3 t4 t5 : ℚ)
    (h4 : t4 - t3 < 30) (h5 : t5 - t3 ≥ 30) :
    (CircuitBreaker.recordFailure ⟨3, st, 30, hm⟩ t3
        (CircuitBreaker.recordFailure ⟨3, st, 30, hm⟩ t2
          (CircuitBreaker.recordFailure ⟨3, st, 30, hm⟩ t1
            CircuitBreaker.init))).state = .opened ∧
    (CircuitBreaker.canExecute ⟨3, st, 30, hm⟩ t4
        (CircuitBreaker.recordFailure ⟨3, st, 30, hm⟩ t3
          (CircuitBreaker.recordFailure ⟨3, st, 30, hm⟩ t2
            (CircuitBreaker.recordFailure ⟨3, st, 30, hm⟩ t1
              CircuitBreaker.init)))).1 = false ∧
    (CircuitBreaker.canExecute ⟨3, st, 30, hm⟩ t4
        (CircuitBreaker.recordFailure ⟨3, st, 30, hm⟩ t3
          (CircuitBreaker.recordFailure ⟨3, st, 30, hm⟩ t2
            (CircuitBreaker.recordFailure ⟨3, st, 30, hm⟩ t1
              CircuitBreaker.init)))).2.state = .opened ∧
    (CircuitBreaker.canExecute ⟨3, st, 30, hm⟩ t5
        (CircuitBreaker.recordFailure ⟨3, st, 30, hm⟩ t3
          (CircuitBreaker.recordFailure ⟨3, st, 30, hm⟩ t2
            (CircuitBreaker.recordFailure ⟨3, st, 30, hm⟩ t1
              CircuitBreaker.init)))).1 = true ∧
    (CircuitBreaker.canExecute ⟨3, st, 30, hm⟩ t5
        (CircuitBreaker.recordFailure ⟨3, st, 30, hm⟩ t3
          (CircuitBreaker.recordFailure ⟨3, st, 30, hm⟩ t2
            (CircuitBreaker.recordFailure ⟨3, st, 30, hm⟩ t1
              CircuitBreaker.init)))).2.state = .halfOpen := by
  have hb : (CircuitBreaker.recordFailure ⟨3, st, 30, hm⟩ t3
      (CircuitBreaker.recordFailure ⟨3, st, 30, hm⟩ t2
        (CircuitBreaker.recordFailure ⟨3, st, 30, hm⟩ t1
          CircuitBreaker.init))) =
      { state := .opened, failureCount := 3, successCount := 0
        lastFailureTime := t3, halfOpenCalls := 0
        stats := { totalCalls := 3, failedCalls := 3, stateChanges := 1
                   lastFailureTime := some t3 } } := rfl
  rw [hb]
  refine ⟨rfl, ?_, ?_, ?_, ?_⟩ <;>
    simp [CircuitBreaker.canExecute, CircuitBreaker.transitionTo,
      not_le.mpr h4, h5]

/-- Witness for `circuit_three_failures_open_then_half_open` at concrete
times 0, 0, 0, 10, 30. -/
theorem circuit_three_failures_open_then_half_open_witness :
    (10 : ℚ) - 0 < 30 ∧ (30 : ℚ) - 0 ≥ 30 ∧
    ((CircuitBreaker.recordFailure ⟨3, 2, 30, 3⟩ 0
        (CircuitBreaker.recordFailure ⟨3, 2, 30, 3⟩ 0
          (CircuitBreaker.recordFailure ⟨3, 2, 30, 3⟩ 0
            CircuitBreaker.init))).state = .opened ∧
      (CircuitBreaker.canExecute ⟨3, 2, 30, 3⟩ 10
          (CircuitBreaker.recordFailure ⟨3, 2, 30, 3⟩ 0
            (CircuitBreaker.recordFailure ⟨3, 2, 30, 3⟩ 0
              (CircuitBreaker.recordFailure ⟨3, 2, 30, 3⟩ 0
                CircuitBreaker.init)))).1 = false ∧
      (CircuitBreaker.canExecute ⟨3, 2, 30, 3⟩ 10
          (CircuitBreaker.recordFailure ⟨3, 2, 30, 3⟩ 0
            (CircuitBreaker.recordFailure ⟨3, 2, 30, 3⟩ 0
              (CircuitBreaker.recordFailure ⟨3, 2, 30, 3⟩ 0
                CircuitBreaker.init)))).2.state = .opened ∧
      (CircuitBreaker.canExecute ⟨3, 2, 30, 3⟩ 30
          (CircuitBreaker.recordFailure ⟨3, 2, 30, 3⟩ 0
            (CircuitBreaker.recordFailure ⟨3, 2, 30, 3⟩ 0
              (CircuitBreaker.recordFailure ⟨3, 2, 30, 3⟩ 0
                CircuitBreaker.init)))).1 = true ∧
      (CircuitBreaker.canExecute ⟨3, 2, 30, 3⟩ 30
          (CircuitBreaker.recordFailure ⟨3, 2, 30, 3⟩ 0
            (CircuitBreaker.recordFailure ⟨3, 2, 30, 3⟩ 0
              (CircuitBreaker.recordFailure ⟨3, 2, 30, 3⟩ 0
                CircuitBreaker.init)))).2.state = .halfOpen) :=
  ⟨by norm_num, by norm_num,
    circuit_three_failures_open_then_half_open 2 3 0 0 0 10 30
      (by norm_num) (by norm_num)⟩

/-- C8 counterexample: the module pre-registers no circuit named `llm`; the
registry's names are `hass`, `research`, `embedding`. -/
theorem no_llm_circuit_preregistered :
    preRegisteredCircuits.lookup "llm" = none := rfl

/-- C8 amended: the module pre-registers exactly the circuits `hass`,
`research` and `embedding`, and their configurations are pairwise
distinct. -/
theorem preregistered_circuits_names_distinct_configs :
    preRegisteredCircuits.map Prod.fst = ["hass", "research", "embedding"] ∧
    (preRegisteredCircuits.map Prod.snd).Pairwise (· ≠ ·) := by
  exact ⟨rfl, by decide⟩

/-! ## Knowledge graph — `backend/memory/graph_rag.py` (in-memory mode)

`KnowledgeGraph`'s persistent maps — `entities`, `relations`,
`_cooccurrence`, `_entity_mentions` — are modelled as association lists in
dict insertion order (each operation keeps keys unique, as Python dicts do).
The derived caches (`adjacency`, `_name_index`, `_relation_index`,
`_entity_cooccur_count`, the native index) are rebuilt from these four maps
and are not read by the operations under verification, so they are not part
of the state.  Float weights become exact reals (`ℝ`) because
`recalculate_weights` calls `math.log`; timestamps (`now_vancouver()`) are
passed as opaque strings. -/

/-- Python-dict association-list lookup: value of the first matching key. -/
def lookupAssoc {κ β : Type} [DecidableEq κ] (l : List (κ × β)) (k : κ) :
    Option β :=
  (l.find? (fun e => e.1 = k)).map Prod.snd

/-- Python-dict assignment `d[k] = f(d.get(k))`: replaces the value in place
when the key is present (keeping its position), else appends at the end. -/
def updateAssoc {κ β : Type} [DecidableEq κ] (l : List (κ × β)) (k : κ)
    (f : Option β → β) : List (κ × β) :=
  match l with
  | [] => [(k, f none)]
  | (k', v) :: t =>
      if k' = k then (k, f (some v)) :: t else (k', v) :: updateAssoc t k f

/-- `Entity` dataclass (the `properties` dict as an association list of
strings; its value type is irrelevant to the claims). -/
structure GEntity where
  id : String
  name : String
  entityType : String
  properties : List (String × String) := []
  mentions : ℕ := 1
  createdAt : String := ""
  lastAccessed : String := ""
  deriving DecidableEq, Repr

/-- `Relation` dataclass. -/
structure GRelation where
  sourceId : String
  targetId : String
  relationType : String
  weight : ℝ := 1
  context : String := ""
  createdAt : String := ""

/-- The `Relation.id` property: `f"{source_id}--{relation_type}-->{target_id}"`. -/
def GRelation.relId (r : GRelation) : String :=
  r.sourceId ++ "--" ++ r.relationType ++ "-->" ++ r.targetId

/-- In-memory `KnowledgeGraph` state (non-PG mode). -/
structure KnowledgeGraph where
  entities : List (String × GEntity)
  relations : List (String × GRelation)
  cooccurrence : List ((String × String) × ℕ)
  entityMentions : List (String × ℕ)

/-- Python string comparison `a < b`: lexicographic on the code-point
sequences. -/
def charListLt : List Char → List Char → Bool
  | [], [] => false
  | [], _ :: _ => true
  | _ :: _, [] => false
  | x :: xs, y :: ys =>
      if x < y then true else if y < x then false else charListLt xs ys

/-- `tuple(sorted([a, b]))` for two strings (Python's stable sort keeps the
original order on ties). -/
def sortedPair (a b : String) : String × String :=
  if charListLt b.toList a.toList then (b, a) else (a, b)

namespace KnowledgeGraph

/-- `KnowledgeGraph.add_relation` (in-memory branch): requires both endpoints
to exist, else returns the unchanged graph and `""`.  On an existing edge it
increments the co-occurrence count of the sorted endpoint pair, bumps both
endpoints' `_entity_mentions` counters, and adds `0.1` to the stored weight
(no cap).  On a new edge it stamps `created_at` and stores the relation. -/
noncomputable def addRelation (now : String) (rel : GRelation)
    (g : KnowledgeGraph) : KnowledgeGraph × String :=
  if (lookupAssoc g.entities rel.sourceId).isNone then (g, "")
  else if (lookupAssoc g.entities rel.targetId).isNone then (g, "")
  else
    match lookupAssoc g.relations rel.relId with
    | some existing =>
        let pair := sortedPair rel.sourceId rel.targetId
        ({ g with
            cooccurrence :=
              updateAssoc g.cooccurrence pair (fun o => o.getD 0 + 1)
            entityMentions :=
              updateAssoc
                (updateAssoc g.entityMentions rel.sourceId
                  (fun o => o.getD 0 + 1))
                rel.targetId (fun o => o.getD 0 + 1)
            relations :=
              updateAssoc g.relations rel.relId
                (fun _ => { existing with
                  weight := existing.weight + (1 : ℝ)/10 }) },
          existing.relId)
    | none =>
        ({ g with
            relations :=
              updateAssoc g.relations rel.relId
                (fun _ => { rel with createdAt := now }) },
          rel.relId)

/-- The `entity_cooccur_count` pre-pass of `recalculate_weights`: one pass
over the co-occurrence map bumping both components of every pair. -/
def entityCooccurCount (g : KnowledgeGraph) (e : String) : ℕ :=
  g.cooccurrence.foldl
    (fun acc pc =>
      acc + (if pc.1.1 = e then 1 else 0) + (if pc.1.2 = e then 1 else 0)) 0

/-- The `new_weight` computed by the `recalculate_weights` loop for one
relation: `TF = pair_count / source_total` (with the `.get(..., 1)` and
`max(..., 1)` defaults), `IDF = ln(total_entities / (1 + source_cooccur))`,
`new = max(0.0, min(1.0, 0.7·TF·IDF + 0.3·baseline))`. -/
noncomputable def recalcClamp (g : KnowledgeGraph) (totalEntities : ℕ)
    (rel : GRelation) : ℝ :=
  let pair := sortedPair rel.sourceId rel.targetId
  let pairCount : ℕ := (lookupAssoc g.cooccurrence pair).getD 1
  let sourceTotal : ℕ := max ((lookupAssoc g.entityMentions rel.sourceId).getD 1) 1
  let sourceCooccur : ℕ := entityCooccurCount g rel.sourceId
  let tf : ℝ := (pairCount : ℝ) / (sourceTotal : ℝ)
  let idf : ℝ := Real.log ((totalEntities : ℝ) / (1 + (sourceCooccur : ℝ)))
  max 0 (min 1 ((7 : ℝ)/10 * tf * idf + (3 : ℝ)/10 * rel.weight))

/-- The body of the `recalculate_weights` loop for one relation: the weight
is replaced by the clamped TF-IDF value only when it moves by more than
`0.001` (the `changed` flag is the second component). -/
noncomputable def recalcOne (g : KnowledgeGraph) (totalEntities : ℕ)
    (rel : GRelation) : GRelation × Bool :=
  if |recalcClamp g totalEntities rel - rel.weight| > (1 : ℝ)/1000 then
    ({ rel with weight := recalcClamp g totalEntities rel }, true)
  else (rel, false)

/-- `KnowledgeGraph.recalculate_weights`: recomputes every relation's weight
by TF-IDF and reports `(total, changed)`. -/
noncomputable def recalculateWeights (g : KnowledgeGraph) :
    KnowledgeGraph × (ℕ × ℕ) :=
  let totalEntities : ℕ := max g.entities.length 1
  let results := g.relations.map (fun kr => (kr.1, recalcOne g totalEntities kr.2))
  ({ g with relations := results.map (fun kr => (kr.1, kr.2.1)) },
    (g.relations.length, results.countP (fun kr => kr.2.2)))

end KnowledgeGraph

/-- The JSON document written by `KnowledgeGraph.save`: entities, relations,
co-occurrence (pair keys joined with `"|"`), entity mentions.  The JSON
object layer is modelled structurally. -/
structure GraphDoc where
  entities : List (String × GEntity)
  relations : List (String × GRelation)
  cooccurrence : List (String × ℕ)
  entityMentions : List (String × ℕ)

/-- Build a Python dict from a key/value stream (later assignments to the
same key overwrite in place, as in a dict comprehension or loop). -/
def buildDict {κ β : Type} [DecidableEq κ] (kvs : List (κ × β)) :
    List (κ × β) :=
  kvs.foldl (fun acc kv => updateAssoc acc kv.1 (fun _ => kv.2)) []

/-- `KnowledgeGraph.save` (non-PG mode): serializes the four maps; a
co-occurrence key `(a, b)` becomes the string `a ++ "|" ++ b`. -/
def KnowledgeGraph.save (g : KnowledgeGraph) : GraphDoc :=
  { entities := g.entities
    relations := g.relations
    cooccurrence :=
      buildDict (g.cooccurrence.map (fun pc => (pc.1.1 ++ "|" ++ pc.1.2, pc.2)))
    entityMentions := g.entityMentions }

/-- `k_str.split("|", 1)` at the character level: split at the first `'|'`,
or `none` when the character does not occur (the `len(parts) == 2` check). -/
def splitCharFirst (c : Char) : List Char → Option (List Char × List Char)
  | [] => none
  | x :: t =>
      if x = c then some ([], t)
      else (splitCharFirst c t).map (fun p => (x :: p.1, p.2))

/-- `k_str.split("|", 1)` on strings, `none` when no `'|'` occurs. -/
def splitFirstBar (s : String) : Option (String × String) :=
  (splitCharFirst '|' s.toList).map fun p => (String.mk p.1, String.mk p.2)

/-- `KnowledgeGraph._load` from a parsed document (the part after
`json.load`): entities and relations are restored field-for-field; each
co-occurrence key is split at the first `'|'` and skipped when the split
does not yield two parts. -/
def KnowledgeGraph.load (doc : GraphDoc) : KnowledgeGraph :=
  { entities := doc.entities
    relations := doc.relations
    cooccurrence :=
      doc.cooccurrence.foldl
        (fun acc kv =>
          match splitFirstBar kv.1 with
          | some p => updateAssoc acc (p.1, p.2) (fun _ => kv.2)
          | none => acc) []
    entityMentions := doc.entityMentions }

lemma lookupAssoc_cons {κ β : Type} [DecidableEq κ] (a : κ) (b : β)
    (t : List (κ × β)) (k : κ) :
    lookupAssoc ((a, b) :: t) k = if a = k then some b else lookupAssoc t k := by
  by_cases h : a = k <;> simp [lookupAssoc, List.find?_cons, h]

lemma lookupAssoc_updateAssoc_self {κ β : Type} [DecidableEq κ]
    (l : List (κ × β)) (k : κ) (f : Option β → β) :
    lookupAssoc (updateAssoc l k f) k = some (f (lookupAssoc l k)) := by
  induction l with
  | nil => simp [updateAssoc, lookupAssoc]
  | cons x t ih =>
      obtain ⟨k', v⟩ := x
      rw [updateAssoc]
      by_cases h : k' = k
      · subst h
        rw [if_pos rfl, lookupAssoc_cons, if_pos rfl, lookupAssoc_cons,
          if_pos rfl]
      · rw [if_neg h, lookupAssoc_cons, if_neg h, ih, lookupAssoc_cons,
          if_neg h]

lemma lookupAssoc_updateAssoc_other {κ β : Type} [DecidableEq κ]
    (l : List (κ × β)) (k k' : κ) (f : Option β → β) (h : k ≠ k') :
    lookupAssoc (updateAssoc l k' f) k = lookupAssoc l k := by
  induction l with
  | nil => simp [updateAssoc, lookupAssoc_cons, Ne.symm h, lookupAssoc]
  | cons x t ih =>
      obtain ⟨a, b⟩ := x
      rw [updateAssoc]
      by_cases ha : a = k'
      · subst ha
        rw [if_pos rfl, lookupAssoc_cons, if_neg (Ne.symm h),
          lookupAssoc_cons, if_neg (Ne.symm h)]
      · rw [if_neg ha, lookupAssoc_cons, lookupAssoc_cons, ih]

/-- C5 counterexample: re-inserting the edge `(a, knows, b)` whose stored
weight is `1.0` leaves weight `1.1 > 1.0` — the `+0.1` bump in
`add_relation` is not capped at `1.0`. -/
theorem relation_weight_exceeds_one_after_reinsert :
    ((lookupAssoc
        (KnowledgeGraph.addRelation "t2"
          { sourceId := "a", targetId := "b", relationType := "knows" }
          { entities := [("a", { id := "a", name := "a", entityType := "person" }),
                         ("b", { id := "b", name := "b", entityType := "person" })]
            relations := [("a--knows-->b",
              { sourceId := "a", targetId := "b", relationType := "knows" })]
            cooccurrence := []
            entityMentions := [] }).1.relations
        "a--knows-->b").map GRelation.weight) = some ((1 : ℝ) + 1/10) ∧
    (1 : ℝ) + 1/10 > 1 := by
  constructor
  · rfl
  · norm_num

/-- C5 amended: on an `add_relation` call whose `(source, type, target)` edge
already exists (and whose endpoints exist and are distinct), the operation
increments the co-occurrence count of the sorted endpoint pair, bumps both
endpoints' mention counters, and raises the edge weight by exactly `0.1`
with no cap — after re-insertions the stored weight can exceed `1.0`, and it
is only clamped back into `[0, 1]` by the next `recalculate_weights`. -/
theorem addRelation_existing_edge_bumps_uncapped
    (g : KnowledgeGraph) (rel existing : GRelation) (now : String)
    (hs : (lookupAssoc g.entities rel.sourceId).isSome)
    (ht : (lookupAssoc g.entities rel.targetId).isSome)
    (hst : rel.sourceId ≠ rel.targetId)
    (hex : lookupAssoc g.relations rel.relId = some existing) :
    (KnowledgeGraph.addRelation now rel g).2 = existing.relId ∧
    lookupAssoc (KnowledgeGraph.addRelation now rel g).1.cooccurrence
        (sortedPair rel.sourceId rel.targetId) =
      some ((lookupAssoc g.cooccurrence
        (sortedPair rel.sourceId rel.targetId)).getD 0 + 1) ∧
    lookupAssoc (KnowledgeGraph.addRelation now rel g).1.entityMentions
        rel.sourceId =
      some ((lookupAssoc g.entityMentions rel.sourceId).getD 0 + 1) ∧
    lookupAssoc (KnowledgeGraph.addRelation now rel g).1.entityMentions
        rel.targetId =
      some ((lookupAssoc g.entityMentions rel.targetId).getD 0 + 1) ∧
    lookupAssoc (KnowledgeGraph.addRelation now rel g).1.relations rel.relId =
      some { existing with weight := existing.weight + (1 : ℝ)/10 } := by
  obtain ⟨eS, heS⟩ := Option.isSome_iff_exists.mp hs
  obtain ⟨eT, heT⟩ := Option.isSome_iff_exists.mp ht
  rw [KnowledgeGraph.addRelation]
  simp only [heS, heT, hex, Option.isNone_some, Bool.false_eq_true, if_false]
  refine ⟨by trivial, ?_, ?_, ?_, ?_⟩
  · exact lookupAssoc_updateAssoc_self _ _ _
  · rw [lookupAssoc_updateAssoc_other _ _ _ _ hst,
      lookupAssoc_updateAssoc_self]
  · rw [lookupAssoc_updateAssoc_self,
      lookupAssoc_updateAssoc_other _ _ _ _ (Ne.symm hst)]
  · exact lookupAssoc_updateAssoc_self _ _ _

/-- Witness for `addRelation_existing_edge_bumps_uncapped`: the concrete
two-entity graph with the stored edge `(a, knows, b)`. -/
theorem addRelation_existing_edge_bumps_uncapped_witness :
    ((lookupAssoc
        (KnowledgeGraph.mk
          [("a", { id := "a", name := "a", entityType := "person" }),
           ("b", { id := "b", name := "b", entityType := "person" })]
          [("a--knows-->b",
            { sourceId := "a", targetId := "b", relationType := "knows" })]
          [] []).entities "a").isSome ∧
      ("a" : String) ≠ "b") ∧
    lookupAssoc
        (KnowledgeGraph.addRelation "t2"
          { sourceId := "a", targetId := "b", relationType := "knows" }
          (KnowledgeGraph.mk
            [("a", { id := "a", name := "a", entityType := "person" }),
             ("b", { id := "b", name := "b", entityType := "person" })]
            [("a--knows-->b",
              { sourceId := "a", targetId := "b", relationType := "knows" })]
            [] [])).1.cooccurrence
        (sortedPair "a" "b") =
      some ((lookupAssoc
        (KnowledgeGraph.mk
          [("a", { id := "a", name := "a", entityType := "person" }),
           ("b", { id := "b", name := "b", entityType := "person" })]
          [("a--knows-->b",
            { sourceId := "a", targetId := "b", relationType := "knows" })]
          [] []).cooccurrence (sortedPair "a" "b")).getD 0 + 1) := by
  refine ⟨⟨?_, ?_⟩, ?_⟩
  · rfl
  · decide
  · exact (addRelation_existing_edge_bumps_uncapped
      (KnowledgeGraph.mk
        [("a", { id := "a", name := "a", entityType := "person" }),
         ("b", { id := "b", name := "b", entityType := "person" })]
        [("a--knows-->b",
          { sourceId := "a", targetId := "b", relationType := "knows" })]
        [] [])
      { sourceId := "a", targetId := "b", relationType := "knows" }
      { sourceId := "a", targetId := "b", relationType := "knows" }
      "t2" (by rfl) (by rfl) (by decide) (by rfl)).2.1

lemma lookupAssoc_nil {κ β : Type} [DecidableEq κ] (k : κ) :
    lookupAssoc ([] : List (κ × β)) k = none := rfl

/-- C4 counterexample: with only entities `a`, `b` and no relations, three
`add_relation (a, knows, b)` calls tally a co-occurrence of `2` (the first
call creates the edge without touching the tally) and mention counters of
`2` — not `3` as claimed. -/
theorem cooccurrence_after_three_adds_is_two :
    lookupAssoc
        (KnowledgeGraph.addRelation "t3" ⟨"a", "b", "knows", 1, "", ""⟩
          (KnowledgeGraph.addRelation "t2" ⟨"a", "b", "knows", 1, "", ""⟩
            (KnowledgeGraph.addRelation "t1" ⟨"a", "b", "knows", 1, "", ""⟩
              ⟨[("a", { id := "a", name := "a", entityType := "person" }),
                ("b", { id := "b", name := "b", entityType := "person" })],
               [], [], []⟩).1).1).1.cooccurrence
        (sortedPair "a" "b") = some 2 ∧
    lookupAssoc
        (KnowledgeGraph.addRelation "t3" ⟨"a", "b", "knows", 1, "", ""⟩
          (KnowledgeGraph.addRelation "t2" ⟨"a", "b", "knows", 1, "", ""⟩
            (KnowledgeGraph.addRelation "t1" ⟨"a", "b", "knows", 1, "", ""⟩
              ⟨[("a", { id := "a", name := "a", entityType := "person" }),
                ("b", { id := "b", name := "b", entityType := "person" })],
               [], [], []⟩).1).1).1.entityMentions "a" = some 2 ∧
    lookupAssoc
        (KnowledgeGraph.addRelation "t3" ⟨"a", "b", "knows", 1, "", ""⟩
          (KnowledgeGraph.addRelation "t2" ⟨"a", "b", "knows", 1, "", ""⟩
            (KnowledgeGraph.addRelation "t1" ⟨"a", "b", "knows", 1, "", ""⟩
              ⟨[("a", { id := "a", name := "a", entityType := "person" }),
                ("b", { id := "b", name := "b", entityType := "person" })],
               [], [], []⟩).1).1).1.cooccurrence
        (sortedPair "a" "b") ≠ some 3 := by
  refine ⟨rfl, rfl, ?_⟩
  intro h
  have h2 : (2 : ℕ) = 3 := Option.some.inj h
  omega

/-- Either `recalcOne` replaced the weight by the clamped TF-IDF value (then
it lies in `[0, 1]`), or it kept the old weight because the clamped value is
within `0.001` of it. -/
lemma recalcClamp_nonneg (g : KnowledgeGraph) (tot : ℕ) (rel : GRelation) :
    0 ≤ KnowledgeGraph.recalcClamp g tot rel :=
  le_max_left 0 _

lemma recalcClamp_le_one (g : KnowledgeGraph) (tot : ℕ) (rel : GRelation) :
    KnowledgeGraph.recalcClamp g tot rel ≤ 1 :=
  max_le zero_le_one (min_le_left _ _)

lemma recalcOne_weight_bounds (g : KnowledgeGraph) (tot : ℕ)
    (rel : GRelation) :
    (0 ≤ (KnowledgeGraph.recalcOne g tot rel).1.weight ∧
      (KnowledgeGraph.recalcOne g tot rel).1.weight ≤ 1) ∨
    ((KnowledgeGraph.recalcOne g tot rel).1.weight = rel.weight ∧
      ∃ X : ℝ, 0 ≤ X ∧ X ≤ 1 ∧ |X - rel.weight| ≤ 1/1000) := by
  rw [KnowledgeGraph.recalcOne]
  split
  · exact Or.inl ⟨recalcClamp_nonneg g tot rel, recalcClamp_le_one g tot rel⟩
  · rename_i h
    exact Or.inr ⟨rfl,
      ⟨KnowledgeGraph.recalcClamp g tot rel, recalcClamp_nonneg g tot rel,
        recalcClamp_le_one g tot rel, not_lt.mp h⟩⟩

/-- C4 amended: from a graph holding only the distinct entities `A` and `B`
and no relations, three `add_relation (A, knows, B)` calls yield a
co-occurrence tally of `2` for the sorted pair (the creating call does not
tally), relation-mention counters of exactly `2` for both endpoints, and a
weight `≤ 1.0` on that edge after a subsequent `recalculate_weights`. -/
theorem add_relation_three_times_tally (A B : String) (hAB : A ≠ B)
    (eA eB : GEntity) (n1 n2 n3 : String) :
    lookupAssoc
        (KnowledgeGraph.addRelation n3 ⟨A, B, "knows", 1, "", ""⟩
          (KnowledgeGraph.addRelation n2 ⟨A, B, "knows", 1, "", ""⟩
            (KnowledgeGraph.addRelation n1 ⟨A, B, "knows", 1, "", ""⟩
              ⟨[(A, eA), (B, eB)], [], [], []⟩).1).1).1.cooccurrence
        (sortedPair A B) = some 2 ∧
    lookupAssoc
        (KnowledgeGraph.addRelation n3 ⟨A, B, "knows", 1, "", ""⟩
          (KnowledgeGraph.addRelation n2 ⟨A, B, "knows", 1, "", ""⟩
            (KnowledgeGraph.addRelation n1 ⟨A, B, "knows", 1, "", ""⟩
              ⟨[(A, eA), (B, eB)], [], [], []⟩).1).1).1.entityMentions A =
      some 2 ∧
    lookupAssoc
        (KnowledgeGraph.addRelation n3 ⟨A, B, "knows", 1, "", ""⟩
          (KnowledgeGraph.addRelation n2 ⟨A, B, "knows", 1, "", ""⟩
            (KnowledgeGraph.addRelation n1 ⟨A, B, "knows", 1, "", ""⟩
              ⟨[(A, eA), (B, eB)], [], [], []⟩).1).1).1.entityMentions B =
      some 2 ∧
    ∀ kr ∈ (KnowledgeGraph.recalculateWeights
        (KnowledgeGraph.addRelation n3 ⟨A, B, "knows", 1, "", ""⟩
          (KnowledgeGraph.addRelation n2 ⟨A, B, "knows", 1, "", ""⟩
            (KnowledgeGraph.addRelation n1 ⟨A, B, "knows", 1, "", ""⟩
              ⟨[(A, eA), (B, eB)], [], [], []⟩).1).1).1).1.relations,
      kr.2.weight ≤ 1 := by
  have e1 : lookupAssoc [(A, eA), (B, eB)] A = some eA := by
    rw [lookupAssoc_cons, if_pos rfl]
  have e2 : lookupAssoc [(A, eA), (B, eB)] B = some eB := by
    rw [lookupAssoc_cons, if_neg hAB, lookupAssoc_cons, if_pos rfl]
  have hg1 : KnowledgeGraph.addRelation n1 ⟨A, B, "knows", 1, "", ""⟩
      ⟨[(A, eA), (B, eB)], [], [], []⟩ =
      (⟨[(A, eA), (B, eB)],
        [(A ++ "--" ++ "knows" ++ "-->" ++ B, ⟨A, B, "knows", 1, "", n1⟩)],
        [], []⟩,
       A ++ "--" ++ "knows" ++ "-->" ++ B) := by
    rw [KnowledgeGraph.addRelation]
    simp only [e1, e2, GRelation.relId, lookupAssoc_nil, Option.isNone_some,
      Bool.false_eq_true, if_false, updateAssoc]
  have hg2 : KnowledgeGraph.addRelation n2 ⟨A, B, "knows", 1, "", ""⟩
      ⟨[(A, eA), (B, eB)],
        [(A ++ "--" ++ "knows" ++ "-->" ++ B, ⟨A, B, "knows", 1, "", n1⟩)],
        [], []⟩ =
      (⟨[(A, eA), (B, eB)],
        [(A ++ "--" ++ "knows" ++ "-->" ++ B,
          ⟨A, B, "knows", 1 + (1 : ℝ)/10, "", n1⟩)],
        [(sortedPair A B, 1)], [(A, 1), (B, 1)]⟩,
       A ++ "--" ++ "knows" ++ "-->" ++ B) := by
    rw [KnowledgeGraph.addRelation]
    simp only [e1, e2, GRelation.relId, Option.isNone_some,
      Bool.false_eq_true, if_false, lookupAssoc_cons, eq_self_iff_true,
      if_true, updateAssoc, if_neg hAB, Option.getD_none, Option.getD_some,
      Nat.zero_add]
  have hg3 : KnowledgeGraph.addRelation n3 ⟨A, B, "knows", 1, "", ""⟩
      ⟨[(A, eA), (B, eB)],
        [(A ++ "--" ++ "knows" ++ "-->" ++ B,
          ⟨A, B, "knows", 1 + (1 : ℝ)/10, "", n1⟩)],
        [(sortedPair A B, 1)], [(A, 1), (B, 1)]⟩ =
      (⟨[(A, eA), (B, eB)],
        [(A ++ "--" ++ "knows" ++ "-->" ++ B,
          ⟨A, B, "knows", 1 + (1 : ℝ)/10 + (1 : ℝ)/10, "", n1⟩)],
        [(sortedPair A B, 2)], [(A, 2), (B, 2)]⟩,
       A ++ "--" ++ "knows" ++ "-->" ++ B) := by
    rw [KnowledgeGraph.addRelation]
    simp only [e1, e2, GRelation.relId, Option.isNone_some,
      Bool.false_eq_true, if_false, lookupAssoc_cons, eq_self_iff_true,
      if_true, updateAssoc, if_neg hAB, if_neg (Ne.symm hAB),
      Option.getD_none, Option.getD_some, Nat.zero_add]
  simp only [hg1, hg2, hg3]
  refine ⟨?_, ?_, ?_, ?_⟩
  · rw [lookupAssoc_cons, if_pos rfl]
  · rw [lookupAssoc_cons, if_pos rfl]
  · rw [lookupAssoc_cons, if_neg hAB, lookupAssoc_cons, if_pos rfl]
  · intro kr hkr
    rw [KnowledgeGraph.recalculateWeights] at hkr
    simp only [List.map_cons, List.map_nil, List.mem_singleton] at hkr
    subst hkr
    rcases recalcOne_weight_bounds
        ⟨[(A, eA), (B, eB)],
          [(A ++ "--" ++ "knows" ++ "-->" ++ B,
            ⟨A, B, "knows", 1 + (1 : ℝ)/10 + (1 : ℝ)/10, "", n1⟩)],
          [(sortedPair A B, 2)], [(A, 2), (B, 2)]⟩
        (max ([(A, eA), (B, eB)]).length 1)
        ⟨A, B, "knows", 1 + (1 : ℝ)/10 + (1 : ℝ)/10, "", n1⟩ with
      h | h
    · exact h.2
    · obtain ⟨heq, X, hX0, hX1, hclose⟩ := h
      dsimp only at heq hclose
      rw [heq]
      exfalso
      have h2 := abs_le.mp hclose
      have h3 := h2.1
      linarith

/-- Witness for `add_relation_three_times_tally` at the concrete entity ids
`a`, `b`. -/
theorem add_relation_three_times_tally_witness :
    ("a" : String) ≠ "b" ∧
    lookupAssoc
        (KnowledgeGraph.addRelation "t3" ⟨"a", "b", "knows", 1, "", ""⟩
          (KnowledgeGraph.addRelation "t2" ⟨"a", "b", "knows", 1, "", ""⟩
            (KnowledgeGraph.addRelation "t1" ⟨"a", "b", "knows", 1, "", ""⟩
              ⟨[("a", { id := "a", name := "a", entityType := "person" }),
                ("b", { id := "b", name := "b", entityType := "person" })],
               [], [], []⟩).1).1).1.cooccurrence
        (sortedPair "a" "b") = some 2 :=
  ⟨by decide,
    (add_relation_three_times_tally "a" "b" (by decide)
      { id := "a", name := "a", entityType := "person" }
      { id := "b", name := "b", entityType := "person" }
      "t1" "t2" "t3").1⟩

lemma log_three_halves_ge : (1 : ℝ)/3 ≤ Real.log (3/2) := by
  have h1 : Real.log ((2 : ℝ)/3) ≤ (2 : ℝ)/3 - 1 :=
    Real.log_le_sub_one_of_pos (by norm_num)
  have h2 : Real.log ((3 : ℝ)/2) = -Real.log ((2 : ℝ)/3) := by
    rw [← Real.log_inv]
    norm_num
  rw [h2]
  linarith

/-- C6 counterexample: a graph state whose single relation carries weight
`1.0005` (reachable, e.g., loaded from the persisted JSON) keeps that
out-of-range weight across `recalculate_weights`: the recomputed clamped
value is `1.0`, which differs from `1.0005` by only `0.0005 ≤ 0.001`, so the
`> 0.001` change gate leaves the old weight in place. -/
theorem out_of_range_weight_survives_recalculate :
    ((KnowledgeGraph.recalculateWeights
        ⟨[("a", { id := "a", name := "a", entityType := "concept" }),
          ("b", { id := "b", name := "b", entityType := "concept" }),
          ("c", { id := "c", name := "c", entityType := "concept" })],
         [("a--r-->b", ⟨"a", "b", "r", 1 + (1 : ℝ)/2000, "", ""⟩)],
         [(("a", "b"), 10)], []⟩).1.relations.map
      (fun kr => kr.2.weight)) = [1 + (1 : ℝ)/2000] ∧
    ¬ ((1 : ℝ) + 1/2000 ≤ 1) := by
  have hclamp : KnowledgeGraph.recalcClamp
      ⟨[("a", { id := "a", name := "a", entityType := "concept" }),
        ("b", { id := "b", name := "b", entityType := "concept" }),
        ("c", { id := "c", name := "c", entityType := "concept" })],
       [("a--r-->b", ⟨"a", "b", "r", 1 + (1 : ℝ)/2000, "", ""⟩)],
       [(("a", "b"), 10)], []⟩ 3
      ⟨"a", "b", "r", 1 + (1 : ℝ)/2000, "", ""⟩ = 1 := by
    rw [KnowledgeGraph.recalcClamp]
    simp only [show sortedPair "a" "b" = ("a", "b") from rfl,
      show lookupAssoc [(("a", "b"), 10)] ("a", "b") = some 10 from rfl,
      show lookupAssoc ([] : List (String × ℕ)) "a" = none from rfl,
      show KnowledgeGraph.entityCooccurCount
        ⟨[("a", { id := "a", name := "a", entityType := "concept" }),
          ("b", { id := "b", name := "b", entityType := "concept" }),
          ("c", { id := "c", name := "c", entityType := "concept" })],
         [("a--r-->b", ⟨"a", "b", "r", 1 + (1 : ℝ)/2000, "", ""⟩)],
         [(("a", "b"), 10)], []⟩ "a" = 1 from rfl,
      Option.getD_some, Option.getD_none, Nat.max_self]
    norm_num
    rw [min_eq_left (by nlinarith [log_three_halves_ge]),
      max_eq_right zero_le_one]
  constructor
  · rw [KnowledgeGraph.recalculateWeights]
    simp only [List.map_cons, List.map_nil, List.length_cons,
      List.length_nil, Nat.zero_add, Nat.reduceAdd,
      show max 3 1 = 3 from rfl]
    rw [KnowledgeGraph.recalcOne, hclamp]
    rw [if_neg (by
      rw [abs_sub_comm, show (1 : ℝ) + 1/2000 - 1 = 1/2000 by ring,
        abs_of_nonneg (by norm_num)]
      norm_num)]
  · norm_num

/-- C6 amended: `recalculate_weights` keeps every weight in `[0, 1]`
provided all weights start in `[0, 1]`: a changed weight is the clamped
TF-IDF value, and an unchanged weight keeps its (in-range) old value.  (For
states with weights outside `[0, 1]`, the `> 0.001` change gate can keep an
out-of-range weight, as the counterexample shows.) -/
theorem recalculate_weights_preserves_unit_interval
    (g : KnowledgeGraph)
    (h : ∀ kr ∈ g.relations, 0 ≤ kr.2.weight ∧ kr.2.weight ≤ 1) :
    ∀ kr ∈ (KnowledgeGraph.recalculateWeights g).1.relations,
      0 ≤ kr.2.weight ∧ kr.2.weight ≤ 1 := by
  intro kr hkr
  rw [KnowledgeGraph.recalculateWeights] at hkr
  simp only [List.map_map, List.mem_map, Function.comp] at hkr
  obtain ⟨a, ha, rfl⟩ := hkr
  rcases recalcOne_weight_bounds g (max g.entities.length 1) a.2 with
    hb | hb
  · exact hb
  · rw [hb.1]
    exact h a ha

/-- Witness for `recalculate_weights_preserves_unit_interval`: a one-edge
graph with weight `0.5`. -/
theorem recalculate_weights_preserves_unit_interval_witness :
    (∀ kr ∈ (KnowledgeGraph.mk
        [("a", { id := "a", name := "a", entityType := "concept" }),
         ("b", { id := "b", name := "b", entityType := "concept" })]
        [("a--r-->b", ⟨"a", "b", "r", (1 : ℝ)/2, "", ""⟩)]
        [] []).relations, 0 ≤ kr.2.weight ∧ kr.2.weight ≤ 1) ∧
    (∀ kr ∈ (KnowledgeGraph.recalculateWeights (KnowledgeGraph.mk
        [("a", { id := "a", name := "a", entityType := "concept" }),
         ("b", { id := "b", name := "b", entityType := "concept" })]
        [("a--r-->b", ⟨"a", "b", "r", (1 : ℝ)/2, "", ""⟩)]
        [] [])).1.relations, 0 ≤ kr.2.weight ∧ kr.2.weight ≤ 1) := by
  have hstart : ∀ kr ∈ (KnowledgeGraph.mk
      [("a", { id := "a", name := "a", entityType := "concept" }),
       ("b", { id := "b", name := "b", entityType := "concept" })]
      [("a--r-->b", ⟨"a", "b", "r", (1 : ℝ)/2, "", ""⟩)]
      [] []).relations, 0 ≤ kr.2.weight ∧ kr.2.weight ≤ 1 := by
    intro kr hkr
    simp only [List.mem_singleton] at hkr
    subst hkr
    norm_num
  exact ⟨hstart, recalculate_weights_preserves_unit_interval _ hstart⟩

lemma splitCharFirst_append (a b : List Char) (h : '|' ∉ a) :
    splitCharFirst '|' (a ++ '|' :: b) = some (a, b) := by
  induction a with
  | nil => simp [splitCharFirst]
  | cons x t ih =>
      rw [List.cons_append, splitCharFirst,
        if_neg (fun hx => h (by rw [← hx]; exact List.mem_cons_self x t)),
        ih (fun hm => h (List.mem_cons_of_mem x hm))]
      rfl

lemma splitFirstBar_join (a b : String) (h : '|' ∉ a.toList) :
    splitFirstBar (a ++ "|" ++ b) = some (a, b) := by
  have hdata : (a ++ "|" ++ b).toList = a.toList ++ '|' :: b.toList := by
    show (a ++ "|" ++ b).data = a.data ++ '|' :: b.data
    rw [String.data_append, String.data_append, List.append_assoc,
      show ("|" : String).data = ['|'] from rfl, List.singleton_append]
  rw [splitFirstBar, hdata, splitCharFirst_append _ _ h]
  rfl

lemma lookupAssoc_append_none {κ β : Type} [DecidableEq κ]
    {l₁ l₂ : List (κ × β)} {k : κ} (h₁ : lookupAssoc l₁ k = none)
    (h₂ : lookupAssoc l₂ k = none) : lookupAssoc (l₁ ++ l₂) k = none := by
  induction l₁ with
  | nil => simpa using h₂
  | cons x t ih =>
      obtain ⟨a, b⟩ := x
      rw [lookupAssoc_cons] at h₁
      rw [List.cons_append, lookupAssoc_cons]
      by_cases ha : a = k
      · rw [if_pos ha] at h₁
        exact absurd h₁ (by simp)
      · rw [if_neg ha] at h₁
        rw [if_neg ha]
        exact ih h₁

lemma updateAssoc_fresh {κ β : Type} [DecidableEq κ]
    {l : List (κ × β)} {k : κ} (f : Option β → β)
    (h : lookupAssoc l k = none) :
    updateAssoc l k f = l ++ [(k, f none)] := by
  induction l with
  | nil => rfl
  | cons x t ih =>
      obtain ⟨a, b⟩ := x
      rw [lookupAssoc_cons] at h
      by_cases ha : a = k
      · rw [if_pos ha] at h
        exact absurd h (by simp)
      · rw [if_neg ha] at h
        rw [updateAssoc, if_neg ha, ih h, List.cons_append]

lemma buildDict_go {κ β : Type} [DecidableEq κ] (l acc : List (κ × β))
    (hfresh : ∀ kv ∈ l, lookupAssoc acc kv.1 = none)
    (hnd : (l.map Prod.fst).Nodup) :
    l.foldl (fun acc kv => updateAssoc acc kv.1 (fun _ => kv.2)) acc =
      acc ++ l := by
  induction l generalizing acc with
  | nil => simp
  | cons kv t ih =>
      rw [List.map_cons] at hnd
      obtain ⟨hk, hnd'⟩ := List.nodup_cons.mp hnd
      rw [List.foldl_cons,
        updateAssoc_fresh _ (hfresh kv (List.mem_cons_self kv t))]
      rw [ih (acc ++ [(kv.1, kv.2)]) ?_ hnd']
      · simp
      · intro kv' hkv'
        refine lookupAssoc_append_none (hfresh kv' (List.mem_cons_of_mem kv hkv')) ?_
        rw [lookupAssoc_cons,
          if_neg (fun he => hk (by
            rw [he]
            exact List.mem_map_of_mem Prod.fst hkv')),
          lookupAssoc_nil]

lemma buildDict_self {κ β : Type} [DecidableEq κ] (l : List (κ × β))
    (hnd : (l.map Prod.fst).Nodup) : buildDict l = l := by
  rw [buildDict, buildDict_go l [] (fun kv _ => rfl) hnd, List.nil_append]

lemma loadFold_over_serialized (l acc : List ((String × String) × ℕ))
    (hpipe : ∀ p ∈ l.map Prod.fst, '|' ∉ p.1.toList) :
    List.foldl (fun acc kv =>
        match splitFirstBar kv.1 with
        | some p => updateAssoc acc (p.1, p.2) (fun _ => kv.2)
        | none => acc) acc
      (l.map (fun pc => (pc.1.1 ++ "|" ++ pc.1.2, pc.2))) =
    List.foldl (fun acc kv => updateAssoc acc kv.1 (fun _ => kv.2)) acc l := by
  induction l generalizing acc with
  | nil => rfl
  | cons pc t ih =>
      rw [List.map_cons, List.foldl_cons, List.foldl_cons]
      have hp : '|' ∉ pc.1.1.toList :=
        hpipe pc.1 (List.mem_map_of_mem Prod.fst (List.mem_cons_self pc t))
      rw [show (match splitFirstBar (pc.1.1 ++ "|" ++ pc.1.2) with
          | some p => updateAssoc acc (p.1, p.2) (fun _ => pc.2)
          | none => acc) =
        updateAssoc acc (pc.1.1, pc.1.2) (fun _ => pc.2) by
          rw [splitFirstBar_join _ _ hp]]
      rw [show (pc.1.1, pc.1.2) = pc.1 from rfl]
      refine ih _ (fun p hp' => hpipe p ?_)
      rw [List.map_cons]
      exact List.mem_cons_of_mem _ hp' 

/-- C7 counterexample: a graph state whose co-occurrence key pair has a `'|'`
inside its first component — reachable from entity ids containing `'|'` —
does not survive the save → load round trip: the serialized key `a|b|c` is
split at the *first* `'|'` on load, producing the different pair
`("a", "b|c")`. -/
theorem pipe_in_cooccurrence_key_breaks_roundtrip :
    (KnowledgeGraph.load (KnowledgeGraph.save
        ⟨[("a|b", { id := "a|b", name := "a|b", entityType := "concept" }),
          ("c", { id := "c", name := "c", entityType := "concept" })],
         [], [(("a|b", "c"), 1)], []⟩)).cooccurrence =
      [(("a", "b|c"), 1)] ∧
    (KnowledgeGraph.mk
        [("a|b", { id := "a|b", name := "a|b", entityType := "concept" }),
         ("c", { id := "c", name := "c", entityType := "concept" })]
        [] [(("a|b", "c"), 1)] []).cooccurrence = [(("a|b", "c"), 1)] ∧
    ([(("a", "b|c"), 1)] : List ((String × String) × ℕ)) ≠
      [(("a|b", "c"), 1)] := by
  refine ⟨rfl, rfl, ?_⟩
  decide

/-- C7 amended: saving and loading reproduces identical entity, relation,
co-occurrence and mention maps for every graph state whose co-occurrence
keys are unique (a dict invariant) and whose pair keys have no `'|'` in
their first component — in particular whenever entity ids are `'|'`-free.
With a `'|'` inside a first component, the string-joined key is re-split at
the wrong position on load. -/
theorem graph_save_load_roundtrip (g : KnowledgeGraph)
    (hnd : (g.cooccurrence.map Prod.fst).Nodup)
    (hpipe : ∀ p ∈ g.cooccurrence.map Prod.fst, '|' ∉ p.1.toList) :
    (KnowledgeGraph.load (KnowledgeGraph.save g)).entities = g.entities ∧
    (KnowledgeGraph.load (KnowledgeGraph.save g)).relations = g.relations ∧
    (KnowledgeGraph.load (KnowledgeGraph.save g)).cooccurrence =
      g.cooccurrence ∧
    (KnowledgeGraph.load (KnowledgeGraph.save g)).entityMentions =
      g.entityMentions := by
  refine ⟨rfl, rfl, ?_, rfl⟩
  rw [KnowledgeGraph.load, KnowledgeGraph.save]
  have hkeys : ((g.cooccurrence.map
      (fun pc => (pc.1.1 ++ "|" ++ pc.1.2, pc.2))).map Prod.fst).Nodup := by
    rw [List.map_map]
    have heq : (Prod.fst ∘ fun pc : (String × String) × ℕ =>
        (pc.1.1 ++ "|" ++ pc.1.2, pc.2)) =
        (fun p : String × String => p.1 ++ "|" ++ p.2) ∘ Prod.fst := rfl
    rw [heq, ← List.map_map]
    refine List.Nodup.map_on ?_ hnd
    intro p hp q hq hjoin
    have hsp : splitFirstBar (p.1 ++ "|" ++ p.2) = some (p.1, p.2) :=
      splitFirstBar_join _ _ (hpipe p hp)
    have hsq : splitFirstBar (q.1 ++ "|" ++ q.2) = some (q.1, q.2) :=
      splitFirstBar_join _ _ (hpipe q hq)
    have : some (p.1, p.2) = some (q.1, q.2) := by
      rw [← hsp, ← hsq, hjoin]
    have h2 := Option.some.inj this
    calc p = (p.1, p.2) := rfl
      _ = (q.1, q.2) := h2
      _ = q := rfl
  rw [buildDict_self _ hkeys]
  rw [loadFold_over_serialized g.cooccurrence [] hpipe]
  rw [show (List.foldl (fun acc kv => updateAssoc acc kv.1 (fun _ => kv.2)) []
      g.cooccurrence) = buildDict g.cooccurrence from rfl]
  exact buildDict_self _ hnd

/-- Witness for `graph_save_load_roundtrip`: a small graph with the
`'|'`-free co-occurrence key `("a", "b")`. -/
theorem graph_save_load_roundtrip_witness :
    (((KnowledgeGraph.mk
        [("a", { id := "a", name := "a", entityType := "concept" })]
        [] [(("a", "b"), 2)] [("a", 1)]).cooccurrence.map
          Prod.fst).Nodup ∧
      ∀ p ∈ ((KnowledgeGraph.mk
        [("a", { id := "a", name := "a", entityType := "concept" })]
        [] [(("a", "b"), 2)] [("a", 1)]).cooccurrence.map Prod.fst),
        '|' ∉ p.1.toList) ∧
    (KnowledgeGraph.load (KnowledgeGraph.save (KnowledgeGraph.mk
        [("a", { id := "a", name := "a", entityType := "concept" })]
        [] [(("a", "b"), 2)] [("a", 1)]))).cooccurrence =
      (KnowledgeGraph.mk
        [("a", { id := "a", name := "a", entityType := "concept" })]
        [] [(("a", "b"), 2)] [("a", 1)]).cooccurrence := by
  refine ⟨⟨by decide, by decide⟩, ?_⟩
  exact (graph_save_load_roundtrip
    (KnowledgeGraph.mk
      [("a", { id := "a", name := "a", entityType := "concept" })]
      [] [(("a", "b"), 2)] [("a", 1)])
    (by decide) (by decide)).2.2.1

/-! ## Style metrics — `backend/memory/recent/interaction_logger.py`

`calculate_style_metrics` is a pure function of the response text; the
response is modelled as its character list.  Float division `a / b` becomes
the exact rational `mkRat a b`, and Python's banker's rounding
`round(x, n)` is modelled exactly on rationals by `pyRound` (the binary
representation error of floats is not modelled; no value in the claims sits
on a tie created by that error).  `str.strip()` strips the common ASCII
whitespace characters. -/

/-- The `_HEDGE_PHRASES` lexicon (English and Korean). -/
def hedgePhrases : List (List Char) :=
  ["아마도".toList, "것 같아".toList, "것 같습니다".toList, "인 것 같아".toList,
   "i think".toList, "i\x27m not sure".toList, "maybe".toList,
   "perhaps".toList, "probably".toList, "확실하지 않지만".toList,
   "추측이지만".toList]

/-- Does the first list occur at the start of the second? -/
def leadMatch : List Char → List Char → Bool
  | [], _ => true
  | _ :: _, [] => false
  | a :: as, b :: bs => a = b && leadMatch as bs

/-- Python's `needle in haystack` substring test. -/
def containsSeq (needle : List Char) : List Char → Bool
  | [] => leadMatch needle []
  | c :: rest => leadMatch needle (c :: rest) || containsSeq needle rest

/-- The sentence separators of `re.split(r"[.!?。]", response)`. -/
def isSentenceSep (c : Char) : Bool :=
  c = '.' || c = '!' || c = '?' || c = '。'

/-- `re.split` on the separator class: a list of n separators yields n + 1
pieces, empty pieces included. -/
def splitOnSeps : List Char → List (List Char)
  | [] => [[]]
  | c :: rest =>
      if isSentenceSep c then [] :: splitOnSeps rest
      else
        match splitOnSeps rest with
        | [] => [[c]]
        | s :: ss => (c :: s) :: ss

/-- `str.strip()` (ASCII whitespace). -/
def isPySpace (c : Char) : Bool :=
  c.isWhitespace || c = '\x0b' || c = '\x0c'

/-- Strip leading and trailing whitespace. -/
def pyStrip (l : List Char) : List Char :=
  ((l.dropWhile isPySpace).reverse.dropWhile isPySpace).reverse

/-- Round `num / den` (`den > 0`) to the nearest integer, ties to even —
Python's `round` on exact values. -/
def roundHalfEvenInt (num den : ℤ) : ℤ :=
  let fl := Int.fdiv num den
  let rem := num - fl * den
  if 2 * rem < den then fl
  else if 2 * rem > den then fl + 1
  else if fl % 2 = 0 then fl else fl + 1

/-- Python `round(q, ndigits)` on an exact rational. -/
def pyRound (ndigits : ℕ) (q : ℚ) : ℚ :=
  mkRat (roundHalfEvenInt (q.num * (10 : ℤ)^ndigits) (q.den : ℤ))
    (10 ^ ndigits)

/-- The stripped non-empty sentences of a response. -/
def styleSentences (response : List Char) : List (List Char) :=
  ((splitOnSeps response).map pyStrip).filter (fun s => s ≠ [])

/-- Does a sentence contain a hedge phrase (checked on the lowercased
sentence)? -/
def hasHedge (s : List Char) : Bool :=
  hedgePhrases.any (fun hdg => containsSeq hdg (s.map Char.toLower))

/-- `calculate_style_metrics`: `(hedge_ratio, avg_sentence_len)`.  Empty or
`< 10`-character responses, and responses with no non-empty sentences,
return `(0.0, 0.0)`; otherwise the hedge share is rounded to 3 decimals and
the average sentence length to 1 decimal. -/
def calculateStyleMetrics (response : List Char) : ℚ × ℚ :=
  if response.length < 10 then (0, 0)
  else
    let sentences := styleSentences response
    if sentences = [] then (0, 0)
    else
      let hedgeCount := sentences.countP hasHedge
      (pyRound 3 (mkRat hedgeCount sentences.length),
       pyRound 1 (mkRat response.length sentences.length))

/-- C9 counterexample: for the response `"maybe yes. bb. cc."` (3 sentences,
1 hedged), the stored hedge ratio is `round(1/3, 3) = 0.333`, which is not
equal to the share `1/3` — `calculate_style_metrics` rounds the hedge ratio
to three decimals. -/
theorem hedge_ratio_is_rounded_not_exact :
    (calculateStyleMetrics "maybe yes. bb. cc.".toList).1 = mkRat 333 1000 ∧
    mkRat 333 1000 ≠ mkRat 1 3 ∧
    (calculateStyleMetrics "maybe yes. bb. cc.".toList).2 = 6 := by
  refine ⟨by decide, by decide, by decide⟩

/-- C9 amended: for every response of length ≥ 10 with at least one
non-empty sentence (splitting on `.!?。` and stripping whitespace),
`calculate_style_metrics` returns the share of sentences containing a hedge
phrase *rounded to three decimals*, and the response length divided by the
sentence count rounded to one decimal; any shorter response — or one with no
non-empty sentences — yields `(0.0, 0.0)`. -/
theorem calculate_style_metrics_formula (response : List Char)
    (hlen : ¬ response.length < 10)
    (hs : styleSentences response ≠ []) :
    calculateStyleMetrics response =
      (pyRound 3 (mkRat ((styleSentences response).filter hasHedge).length
          (styleSentences response).length),
       pyRound 1 (mkRat response.length (styleSentences response).length)) ∧
    (∀ r2 : List Char, r2.length < 10 → calculateStyleMetrics r2 = (0, 0)) ∧
    (∀ r3 : List Char, styleSentences r3 = [] →
      calculateStyleMetrics r3 = (0, 0)) := by
  refine ⟨?_, ?_, ?_⟩
  · rw [calculateStyleMetrics, if_neg hlen]
    simp only [if_neg hs, List.countP_eq_length_filter]
  · intro r2 h
    rw [calculateStyleMetrics, if_pos h]
  · intro r3 h
    rw [calculateStyleMetrics]
    split
    · rfl
    · rw [if_pos h]

/-- Witness for `calculate_style_metrics_formula` at the concrete response
`"maybe yes. bb. cc."`. -/
theorem calculate_style_metrics_formula_witness :
    (¬ ("maybe yes. bb. cc.".toList).length < 10 ∧
      styleSentences "maybe yes. bb. cc.".toList ≠ []) ∧
    calculateStyleMetrics "maybe yes. bb. cc.".toList =
      (pyRound 3 (mkRat
          ((styleSentences "maybe yes. bb. cc.".toList).filter
            hasHedge).length
          (styleSentences "maybe yes. bb. cc.".toList).length),
       pyRound 1 (mkRat ("maybe yes. bb. cc.".toList).length
          (styleSentences "maybe yes. bb. cc.".toList).length)) :=
  ⟨⟨by decide, by decide⟩,
    (calculate_style_metrics_formula "maybe yes. bb. cc.".toList
      (by decide) (by decide)).1⟩

end AxelBackend
